import Mathlib

/-!
Verification of the job-orchestration / pipeline core of the podcast dubbing
backend (`backend/app/main.py` and `backend/app/pipeline.py`).

Strings are modelled as `List Char` (Python `str` is a sequence of code
points).  `str.strip()` is modelled by `pyStrip` (dropping `Char.isWhitespace`
characters from both ends; Python strips the same ASCII whitespace class on
the inputs considered here).  `str.splitlines()` is modelled by `splitlines`
(splitting on the newline character, with no trailing empty line — the only
line terminator relevant to this code base).
-/

namespace PodcastDub

/-- Whitespace test used by `strip()` (model of Python `str.isspace` chars). -/
def isWs (c : Char) : Bool := c.isWhitespace

/-- Model of Python `s.strip()`: drop whitespace from both ends. -/
def pyStrip (l : List Char) : List Char :=
  ((l.dropWhile isWs).reverse.dropWhile isWs).reverse

/-- Split a character list on newline characters (keeps empty fields). -/
def splitOnNl : List Char → List (List Char)
  | [] => [[]]
  | c :: rest =>
    if c = '\n' then [] :: splitOnNl rest
    else
      match splitOnNl rest with
      | [] => [[c]]
      | p :: ps => (c :: p) :: ps

/-- Model of Python `s.splitlines()`: empty string gives no lines, a trailing
newline does not produce a trailing empty line. -/
def splitlines (s : List Char) : List (List Char) :=
  if s = [] then []
  else splitOnNl (if s.getLast? = some '\n' then s.dropLast else s)

/-- One iteration bucket of the `while len(line) > max_chars` loop of
`chunk_text` (`pipeline.py:33-35`): repeatedly emit `strip(line[:max_chars])`
and continue with `strip(line[max_chars:])`.  `fuel` bounds the recursion; for
`1 ≤ m` a fuel of `line.length` is sufficient (the Python loop terminates on
exactly those inputs). -/
def splitLongAux (m : Nat) : Nat → List Char → List (List Char) × List Char
  | 0, line => ([], line)
  | fuel + 1, line =>
    if m < line.length then
      let r := splitLongAux m fuel (pyStrip (line.drop m))
      (pyStrip (line.take m) :: r.1, r.2)
    else ([], line)

/-- The hard-split loop of `chunk_text`, with sufficient fuel. -/
def splitLong (m : Nat) (line : List Char) : List (List Char) × List Char :=
  splitLongAux m line.length line

/-- The line loop of `chunk_text` (`pipeline.py:27-44`); `buf` and `parts`
are the Python accumulator variables.  Note the Python order of appends: the
hard-split slices of a long line are appended to `parts` before the pending
buffer is flushed. -/
def chunkLoop (m : Nat) : List (List Char) → List Char → List (List Char) → List (List Char)
  | [], buf, parts =>
    if (pyStrip buf).isEmpty then parts else parts ++ [pyStrip buf]
  | l :: ls, buf, parts =>
    let line := pyStrip l
    if line.isEmpty then chunkLoop m ls buf parts
    else
      let line2 := (splitLong m line).2
      let parts2 := parts ++ (splitLong m line).1
      if m < buf.length + line2.length + 1 then
        chunkLoop m ls line2
          (if (pyStrip buf).isEmpty then parts2 else parts2 ++ [pyStrip buf])
      else
        chunkLoop m ls (pyStrip (buf ++ ' ' :: line2)) parts2

/-- Model of `chunk_text(text, max_chars)` (`pipeline.py:27-44`), the
synthesis-mode chunker (default bound 260). -/
def chunk_text (text : List Char) (m : Nat) : List (List Char) :=
  chunkLoop m (splitlines text) [] []

/-- The line loop of `chunk_text_translate` (`pipeline.py:47-62`): identical
greedy packing, with no hard-split of long lines. -/
def chunkLoopT (m : Nat) : List (List Char) → List Char → List (List Char) → List (List Char)
  | [], buf, parts =>
    if (pyStrip buf).isEmpty then parts else parts ++ [pyStrip buf]
  | l :: ls, buf, parts =>
    let line := pyStrip l
    if line.isEmpty then chunkLoopT m ls buf parts
    else if m < buf.length + line.length + 1 then
      chunkLoopT m ls line
        (if (pyStrip buf).isEmpty then parts else parts ++ [pyStrip buf])
    else
      chunkLoopT m ls (pyStrip (buf ++ ' ' :: line)) parts

/-- Model of `chunk_text_translate(text, max_chars)` (`pipeline.py:47-62`),
the translation-mode chunker (default bound 900). -/
def chunk_text_translate (text : List Char) (m : Nat) : List (List Char) :=
  chunkLoopT m (splitlines text) [] []

/-- The non-blank stripped lines of a text, in order: the reference content
for the round-trip law. -/
def normLines (text : List Char) : List (List Char) :=
  ((splitlines text).map pyStrip).filter (fun l => !l.isEmpty)

/-- Join a list of fragments with single spaces (whitespace-normalized
concatenation of chunks). -/
def joinSp : List (List Char) → List Char
  | [] => []
  | [x] => x
  | x :: y :: ys => x ++ ' ' :: joinSp (y :: ys)

/-- A fragment with no leading or trailing whitespace (`strip` fixpoint). -/
def Stripped (l : List Char) : Prop := pyStrip l = l

/-! ## Device fallback model (`tts_speak`, `translate_en2vi`)

A model-backed call is abstracted as a collaborator function
`Nat → Dev → SpeakRes`: for a chunk index and the device the model object
currently lives on, it either succeeds, raises a `RuntimeError` whose message
contains "out of memory" (`SpeakRes.oom`), or raises any other exception
(`SpeakRes.fail` — a non-OOM `RuntimeError` and a non-`RuntimeError`
exception are handled identically by the source).  The loops below record the
trace of attempts `(chunk index, device)` in order, exactly as the source
performs them on a fresh job directory (no pre-existing segment files). -/

/-- Compute device of a model object: CUDA ("gpu") or CPU. -/
inductive Dev : Type
  | gpu
  | cpu
deriving DecidableEq

/-- Outcome of one collaborator call. -/
inductive SpeakRes : Type
  | ok
  | oom
  | fail
deriving DecidableEq

/-- The chunk loop of `tts_speak` (`pipeline.py:93-118`).  State: the device
the `tts` object lives on, and the sticky `tts_cpu_fallback` flag.  Returns
the indices whose segment file was produced (`seg_files`, in append order)
and the trace of attempted calls.  On OOM with the flag unset, the `tts`
object is re-created on CPU, the flag is set, and the same chunk is retried
once; any failure of the retry skips the chunk.  On OOM with the flag set, or
on any other failure, the chunk is skipped with no state change. -/
def ttsLoop (speak : Nat → Dev → SpeakRes) :
    List Nat → Dev → Bool → List Nat × List (Nat × Dev)
  | [], _, _ => ([], [])
  | i :: rest, dev, fb =>
    match speak i dev with
    | .ok =>
      let r := ttsLoop speak rest dev fb
      (i :: r.1, (i, dev) :: r.2)
    | .oom =>
      if fb then
        let r := ttsLoop speak rest dev fb
        (r.1, (i, dev) :: r.2)
      else
        match speak i Dev.cpu with
        | .ok =>
          let r := ttsLoop speak rest Dev.cpu true
          (i :: r.1, (i, dev) :: (i, Dev.cpu) :: r.2)
        | _ =>
          let r := ttsLoop speak rest Dev.cpu true
          (r.1, (i, dev) :: (i, Dev.cpu) :: r.2)
    | .fail =>
      let r := ttsLoop speak rest dev fb
      (r.1, (i, dev) :: r.2)

/-- Model of `tts_speak` (`pipeline.py:65-132`) after the `TTS` object has
been constructed: run the chunk loop from the initial device `d0` with the
fallback flag unset; if no segment was produced raise (`pipeline.py:120-121`),
otherwise concatenate the surviving segments in list order
(`pipeline.py:123-132`, the ffmpeg concat list is written in `seg_files`
order). -/
def tts_speak (speak : Nat → Dev → SpeakRes) (d0 : Dev) (idxs : List Nat) :
    Except Unit (List Nat) :=
  let segs := (ttsLoop speak idxs d0 false).1
  if segs = [] then .error () else .ok segs

/-- The chunk loop of `translate_en2vi` (`pipeline.py:165-193`).  Same sticky
CPU fallback, but a failing chunk aborts the whole stage: a non-OOM failure
re-raises, an OOM with the flag already set re-raises, and the CPU retry is
not guarded, so its failure propagates.  Returns the stage outcome (the
translated chunk indices in order, or the abort) and the attempt trace. -/
def translateLoop (gen : Nat → Dev → SpeakRes) :
    List Nat → Dev → Bool → Except Unit (List Nat) × List (Nat × Dev)
  | [], _, _ => (.ok [], [])
  | i :: rest, dev, fb =>
    match gen i dev with
    | .ok =>
      let r := translateLoop gen rest dev fb
      (r.1.map (fun l => i :: l), (i, dev) :: r.2)
    | .oom =>
      if fb then (.error (), [(i, dev)])
      else
        match gen i Dev.cpu with
        | .ok =>
          let r := translateLoop gen rest Dev.cpu true
          (r.1.map (fun l => i :: l), (i, dev) :: (i, Dev.cpu) :: r.2)
        | _ => (.error (), [(i, dev), (i, Dev.cpu)])
    | .fail => (.error (), [(i, dev)])

/-- Model of `translate_en2vi` (`pipeline.py:142-195`) after model loading:
the chunk loop from initial device `d0`, fallback flag unset. -/
def translate_en2vi (gen : Nat → Dev → SpeakRes) (d0 : Dev) (idxs : List Nat) :
    Except Unit (List Nat) :=
  (translateLoop gen idxs d0 false).1

/-! ## Job status lifecycle (`main.py`) -/

/-- Job status values written to `status.txt` (`unknown` is what a reader
reports when no record exists yet, `main.py:47-54`). -/
inductive JobStatus : Type
  | running
  | done
  | error
  | unknown
deriving DecidableEq

/-- The five-stage pipeline `main` (`pipeline.py:198-271`), with each stage's
effect abstracted as an `Except` value: ffmpeg 16k conversion, ASR (producing
the English text), translation (English text to Vietnamese text), TTS, and
MP3 encoding.  A stage exception aborts the remaining stages. -/
def pipelineMain (ffmpeg : Except String Unit) (asr : Except String String)
    (translate : String → Except String String)
    (tts : String → Except String Unit)
    (mp3 : Except String Unit) : Except String Unit := do
  ffmpeg
  let en ← asr
  let vi ← translate en
  tts vi
  mp3

/-- Model of `_run_pipeline_bg` (`main.py:83-103`): everything inside the
`try` (environment setup, the import of the pipeline module and of the
remote-download helpers, the optional URL download — abstracted as `prep` —
followed by the pipeline run) either completes, in which case `status.txt`
becomes `done` and no error log is written, or raises, in which case
`status.txt` becomes `error` and the traceback is written to
`logs/error.log`. -/
def runPipelineBg (prep : Except String Unit) (run : Except String Unit) :
    JobStatus × Option String :=
  match (do prep; run : Except String Unit) with
  | .ok _ => (.done, none)
  | .error e => (.error, some e)

/-- The status `create_job` writes before spawning the background thread
(`main.py:148`). -/
def statusAfterCreate : JobStatus := .running

/-! ## Download endpoint (`main.py:176-187`)

Paths are modelled as lists of components from the filesystem root.
`Path.resolve()` on an absolute path without symlinks is lexical `..` / `.`
elimination (`resolveComps`).  For resolved component lists,
`base ∈ file_path.parents` holds exactly when `base` is a proper prefix of
`file_path`, so the source guard `base not in file_path.parents and
file_path != base` is the negation of `base.isPrefixOf file_path`. -/

/-- Outcome of the download endpoint: 200 with the served file, 400
("Invalid path"), or 404 ("File not found"). -/
inductive DlOutcome : Type
  | served (p : List String)
  | invalid
  | notFound
deriving DecidableEq

/-- One step of lexical path resolution: `..` pops a component (staying at
the root when already there), `.` and empty components are dropped. -/
def resolveStep (acc : List String) (c : String) : List String :=
  if c = ".." then acc.dropLast
  else if c = "." ∨ c = "" then acc
  else acc ++ [c]

/-- Resolve a component list from the filesystem root. -/
def resolveComps (cs : List String) : List String :=
  cs.foldl resolveStep []

/-- Model of `download(job_id, path)` (`main.py:176-187`): resolve the job's
outputs directory and the requested path, reject with 400 unless the former
is a prefix of (or equal to) the latter, then 404 if the file does not exist,
else serve the file.  `fileExists` abstracts the disk state. -/
def download (fileExists : List String → Bool) (jobsDir : List String)
    (jobId : String) (rel : List String) : DlOutcome :=
  let base := resolveComps (jobsDir ++ [jobId, "outputs"])
  let fp := resolveComps (jobsDir ++ [jobId, "outputs"] ++ rel)
  if base.isPrefixOf fp then
    if fileExists fp then .served fp else .notFound
  else .invalid

/-! ## Job creation validation (`main.py:123-133`) -/

/-- Python truthiness of an optional form string (`Form(None)`): absent and
empty strings are falsy. -/
def truthyStr : Option String → Bool
  | none => false
  | some s => !s.isEmpty

/-- Model of the validation in `create_job` (`main.py:131-133`): the request
is rejected with 400 exactly when `not file and not youtube_url and not
spotify_url` holds (an `UploadFile` object is always truthy, so `file` is
modelled by its presence). -/
def create_job_rejected (file : Bool) (youtube_url spotify_url : Option String) : Bool :=
  !file && !(truthyStr youtube_url) && !(truthyStr spotify_url)

/-! ## Lemmas about `pyStrip` -/

theorem pyStrip_eq_rdrop (l : List Char) :
    pyStrip l = List.rdropWhile isWs (l.dropWhile isWs) := rfl

theorem pyStrip_length_le (l : List Char) : (pyStrip l).length ≤ l.length := by
  rw [pyStrip_eq_rdrop]
  exact le_trans (List.rdropWhile_prefix isWs (l.dropWhile isWs)).length_le
    (List.dropWhile_suffix isWs).length_le

theorem dropWhile_pyStrip (l : List Char) : (pyStrip l).dropWhile isWs = pyStrip l := by
  rw [pyStrip_eq_rdrop, List.dropWhile_eq_self_iff]
  intro hl
  have hp := List.rdropWhile_prefix isWs (l.dropWhile isWs)
  have h0 := hp.getElem hl
  have hn := List.dropWhile_get_zero_not isWs l (lt_of_lt_of_le hl hp.length_le)
  simp only [List.get_eq_getElem] at hn ⊢
  rw [h0]
  exact hn

theorem rdropWhile_pyStrip (l : List Char) :
    List.rdropWhile isWs (pyStrip l) = pyStrip l := by
  rw [pyStrip_eq_rdrop]
  exact List.rdropWhile_idempotent isWs (l.dropWhile isWs)

theorem pyStrip_idem (l : List Char) : pyStrip (pyStrip l) = pyStrip l := by
  rw [pyStrip_eq_rdrop (pyStrip l), dropWhile_pyStrip, rdropWhile_pyStrip]

theorem stripped_pyStrip (l : List Char) : Stripped (pyStrip l) := pyStrip_idem l

theorem stripped_nil : Stripped ([] : List Char) := rfl

theorem Stripped.dropWhile_eq {l : List Char} (h : Stripped l) :
    l.dropWhile isWs = l := by
  conv_lhs => rw [← h]
  rw [dropWhile_pyStrip, h]

theorem Stripped.rdrop_eq {l : List Char} (h : Stripped l) :
    List.rdropWhile isWs l = l := by
  conv_lhs => rw [← h]
  rw [rdropWhile_pyStrip, h]

theorem Stripped.head_not_ws {c : Char} {t : List Char} (h : Stripped (c :: t)) :
    isWs c = false := by
  cases hc : isWs c with
  | false => rfl
  | true =>
    exfalso
    have hd := h.dropWhile_eq
    rw [List.dropWhile_cons, hc] at hd
    have := congrArg List.length hd
    have hle := (List.dropWhile_suffix (l := t) isWs).length_le
    simp at this
    omega

theorem Stripped.getLast_not_ws {l : List Char} (h : Stripped l) (hl : l ≠ []) :
    isWs (l.getLast hl) = false := by
  have := List.rdropWhile_eq_self_iff.mp h.rdrop_eq hl
  simpa using this

theorem pyStrip_cons_space (b : List Char) : pyStrip (' ' :: b) = pyStrip b := by
  have hs : isWs ' ' = true := rfl
  simp [pyStrip, List.dropWhile_cons, hs]

theorem pyStrip_append_space {a b : List Char} (ha : Stripped a) (ha2 : a ≠ [])
    (hb : Stripped b) (hb2 : b ≠ []) :
    pyStrip (a ++ ' ' :: b) = a ++ ' ' :: b := by
  have h1 : (a ++ ' ' :: b).dropWhile isWs = a ++ ' ' :: b := by
    obtain ⟨c, t, rfl⟩ := List.exists_cons_of_ne_nil ha2
    have hc : isWs c = false := ha.head_not_ws
    simp [List.dropWhile_cons, hc]
  have h2 : List.rdropWhile isWs (a ++ ' ' :: b) = a ++ ' ' :: b := by
    rw [List.rdropWhile_eq_self_iff]
    intro hl
    have hg : (a ++ ' ' :: b).getLast hl = b.getLast hb2 := by
      rw [List.getLast_append' a (' ' :: b) (List.cons_ne_nil _ _)]
      exact List.getLast_cons hb2
    rw [hg]
    have := hb.getLast_not_ws hb2
    simp [this]
  rw [pyStrip_eq_rdrop, h1, h2]

/-! ## Lemmas about `joinSp` and the chunking loops -/

theorem joinSp_cons {ys : List (List Char)} (x : List Char) (h : ys ≠ []) :
    joinSp (x :: ys) = x ++ ' ' :: joinSp ys := by
  cases ys with
  | nil => exact absurd rfl h
  | cons y ys => rfl

theorem joinSp_merge (ps : List (List Char)) (a b : List Char)
    (rest : List (List Char)) :
    joinSp (ps ++ (a ++ ' ' :: b) :: rest) = joinSp (ps ++ a :: b :: rest) := by
  induction ps with
  | nil =>
    cases rest with
    | nil => rfl
    | cons r rs =>
      simp only [List.nil_append]
      rw [joinSp_cons _ (List.cons_ne_nil r rs),
        joinSp_cons a (List.cons_ne_nil b (r :: rs)),
        joinSp_cons b (List.cons_ne_nil r rs)]
      simp
  | cons p ps ih =>
    simp only [List.cons_append]
    rw [joinSp_cons p (by simp), joinSp_cons p (by simp), ih]

theorem chunkLoopT_nil (m : Nat) (buf : List Char) (parts : List (List Char)) :
    chunkLoopT m [] buf parts
      = if (pyStrip buf).isEmpty then parts else parts ++ [pyStrip buf] := rfl

theorem chunkLoopT_cons_blank {m : Nat} {l : List Char} {ls : List (List Char)}
    {buf : List Char} {parts : List (List Char)}
    (h1 : (pyStrip l).isEmpty = true) :
    chunkLoopT m (l :: ls) buf parts = chunkLoopT m ls buf parts := by
  simp [chunkLoopT, h1]

theorem chunkLoopT_cons_over {m : Nat} {l : List Char} {ls : List (List Char)}
    {buf : List Char} {parts : List (List Char)}
    (h1 : (pyStrip l).isEmpty = false)
    (hov : m < buf.length + (pyStrip l).length + 1) :
    chunkLoopT m (l :: ls) buf parts
      = chunkLoopT m ls (pyStrip l)
          (if (pyStrip buf).isEmpty then parts else parts ++ [pyStrip buf]) := by
  simp [chunkLoopT, h1, hov]

theorem chunkLoopT_cons_pack {m : Nat} {l : List Char} {ls : List (List Char)}
    {buf : List Char} {parts : List (List Char)}
    (h1 : (pyStrip l).isEmpty = false)
    (hov : ¬ m < buf.length + (pyStrip l).length + 1) :
    chunkLoopT m (l :: ls) buf parts
      = chunkLoopT m ls (pyStrip (buf ++ ' ' :: pyStrip l)) parts := by
  simp [chunkLoopT, h1, hov]

theorem chunkLoopT_joinSp (m : Nat) :
    ∀ (ls : List (List Char)) (buf : List Char) (parts : List (List Char)),
      Stripped buf →
      joinSp (chunkLoopT m ls buf parts)
        = joinSp (parts ++ (if buf.isEmpty then [] else [buf])
            ++ (ls.map pyStrip).filter (fun l => !l.isEmpty)) := by
  intro ls
  induction ls with
  | nil =>
    intro buf parts hb
    have hb' : pyStrip buf = buf := hb
    rw [chunkLoopT_nil, hb']
    cases hbe : buf.isEmpty with
    | true =>
      have : buf = [] := List.isEmpty_iff.mp hbe
      subst this
      simp
    | false => simp [hbe]
  | cons l ls ih =>
    intro buf parts hb
    have hb' : pyStrip buf = buf := hb
    cases h1 : (pyStrip l).isEmpty with
    | true =>
      rw [chunkLoopT_cons_blank h1, ih buf parts hb]
      simp [List.filter_cons, h1]
    | false =>
      have hlne : pyStrip l ≠ [] := by
        intro hn
        rw [hn] at h1
        simp at h1
      by_cases hov : m < buf.length + (pyStrip l).length + 1
      · rw [chunkLoopT_cons_over h1 hov, hb',
          ih (pyStrip l) _ (stripped_pyStrip l)]
        cases hbe : buf.isEmpty with
        | true =>
          have : buf = [] := List.isEmpty_iff.mp hbe
          subst this
          simp [List.filter_cons, h1]
        | false => simp [List.filter_cons, h1, hbe]
      · rw [chunkLoopT_cons_pack h1 hov]
        cases hbe : buf.isEmpty with
        | true =>
          have hb0 : buf = [] := List.isEmpty_iff.mp hbe
          subst hb0
          rw [List.nil_append, pyStrip_cons_space, pyStrip_idem,
            ih (pyStrip l) parts (stripped_pyStrip l)]
          simp [List.filter_cons, h1]
        | false =>
          have hbne : buf ≠ [] := by
            intro hn
            rw [hn] at hbe
            simp at hbe
          have hK := pyStrip_append_space hb hbne (stripped_pyStrip l) hlne
          rw [hK, ih (buf ++ ' ' :: pyStrip l) parts hK]
          have hne2 : (buf ++ ' ' :: pyStrip l).isEmpty = false := by
            cases buf with
            | nil => exact absurd rfl hbne
            | cons c t => rfl
          have hmg := joinSp_merge parts buf (pyStrip l)
            ((ls.map pyStrip).filter (fun l => !l.isEmpty))
          simpa [hne2, hbe, h1, List.filter_cons] using hmg

theorem roundtrip_translate (text : List Char) (m : Nat) :
    joinSp (chunk_text_translate text m) = joinSp (normLines text) := by
  rw [chunk_text_translate, chunkLoopT_joinSp m (splitlines text) [] [] stripped_nil]
  simp [normLines]

theorem chunkLoopT_cons {m : Nat} {l : List Char} {ls : List (List Char)}
    {buf : List Char} {parts : List (List Char)}
    (h1 : (pyStrip l).isEmpty = false) :
    chunkLoopT m (l :: ls) buf parts
      = if m < buf.length + (pyStrip l).length + 1 then
          chunkLoopT m ls (pyStrip l)
            (if (pyStrip buf).isEmpty then parts else parts ++ [pyStrip buf])
        else chunkLoopT m ls (pyStrip (buf ++ ' ' :: pyStrip l)) parts := by
  by_cases hov : m < buf.length + (pyStrip l).length + 1
  · rw [if_pos hov]
    exact chunkLoopT_cons_over h1 hov
  · rw [if_neg hov]
    exact chunkLoopT_cons_pack h1 hov

theorem chunkLoop_nil (m : Nat) (buf : List Char) (parts : List (List Char)) :
    chunkLoop m [] buf parts
      = if (pyStrip buf).isEmpty then parts else parts ++ [pyStrip buf] := rfl

theorem chunkLoop_cons_blank {m : Nat} {l : List Char} {ls : List (List Char)}
    {buf : List Char} {parts : List (List Char)}
    (h1 : (pyStrip l).isEmpty = true) :
    chunkLoop m (l :: ls) buf parts = chunkLoop m ls buf parts := by
  simp [chunkLoop, h1]

theorem chunkLoop_cons {m : Nat} {l : List Char} {ls : List (List Char)}
    {buf : List Char} {parts : List (List Char)}
    (h1 : (pyStrip l).isEmpty = false) :
    chunkLoop m (l :: ls) buf parts
      = if m < buf.length + ((splitLong m (pyStrip l)).2).length + 1 then
          chunkLoop m ls ((splitLong m (pyStrip l)).2)
            (if (pyStrip buf).isEmpty then parts ++ (splitLong m (pyStrip l)).1
             else (parts ++ (splitLong m (pyStrip l)).1) ++ [pyStrip buf])
        else chunkLoop m ls (pyStrip (buf ++ ' ' :: (splitLong m (pyStrip l)).2))
            (parts ++ (splitLong m (pyStrip l)).1) := by
  by_cases hov : m < buf.length + ((splitLong m (pyStrip l)).2).length + 1
  · rw [if_pos hov]
    simp [chunkLoop, h1, hov]
  · rw [if_neg hov]
    simp [chunkLoop, h1, hov]

theorem splitLongAux_nosplit {m : Nat} {line : List Char} (h : ¬ m < line.length) :
    ∀ f, splitLongAux m f line = ([], line) := by
  intro f
  cases f with
  | zero => rfl
  | succ f => simp [splitLongAux, h]

theorem splitLong_nosplit {m : Nat} {line : List Char} (h : line.length ≤ m) :
    splitLong m line = ([], line) :=
  splitLongAux_nosplit (Nat.not_lt.mpr h) _

theorem chunkLoop_eq_chunkLoopT (m : Nat) :
    ∀ (ls : List (List Char)) (buf : List Char) (parts : List (List Char)),
      (∀ l ∈ ls, (pyStrip l).length ≤ m) →
      chunkLoop m ls buf parts = chunkLoopT m ls buf parts := by
  intro ls
  induction ls with
  | nil => intro buf parts _; rfl
  | cons l ls ih =>
    intro buf parts hall
    have hl : (pyStrip l).length ≤ m := hall l (List.mem_cons_self l ls)
    have htl : ∀ x ∈ ls, (pyStrip x).length ≤ m :=
      fun x hx => hall x (List.mem_cons_of_mem l hx)
    cases h1 : (pyStrip l).isEmpty with
    | true =>
      rw [chunkLoop_cons_blank h1, chunkLoopT_cons_blank h1]
      exact ih buf parts htl
    | false =>
      rw [chunkLoop_cons h1, chunkLoopT_cons h1]
      simp only [splitLong_nosplit hl, List.append_nil]
      by_cases hov : m < buf.length + (pyStrip l).length + 1
      · rw [if_pos hov, if_pos hov]
        exact ih _ _ htl
      · rw [if_neg hov, if_neg hov]
        exact ih _ _ htl

theorem chunkLoopT_all_blank (m : Nat) :
    ∀ (ls : List (List Char)) (buf : List Char) (parts : List (List Char)),
      (∀ l ∈ ls, pyStrip l = []) →
      chunkLoopT m ls buf parts
        = if (pyStrip buf).isEmpty then parts else parts ++ [pyStrip buf] := by
  intro ls
  induction ls with
  | nil => intro buf parts _; rfl
  | cons l ls ih =>
    intro buf parts hall
    have h1 : (pyStrip l).isEmpty = true := by
      rw [hall l (List.mem_cons_self l ls)]
      rfl
    rw [chunkLoopT_cons_blank h1]
    exact ih buf parts (fun x hx => hall x (List.mem_cons_of_mem l hx))

/-! ## The length bound of synthesis-mode chunking -/

theorem splitLong_emitted_le (m : Nat) :
    ∀ (f : Nat) (line : List Char), ∀ p ∈ (splitLongAux m f line).1, p.length ≤ m := by
  intro f
  induction f with
  | zero =>
    intro line p hp
    simp [splitLongAux] at hp
  | succ f ih =>
    intro line p hp
    by_cases h : m < line.length
    · simp only [splitLongAux, if_pos h] at hp
      rcases List.mem_cons.mp hp with h2 | h2
      · subst h2
        calc (pyStrip (line.take m)).length
            ≤ (line.take m).length := pyStrip_length_le _
          _ ≤ m := by simp [List.length_take]
      · exact ih _ p h2
    · simp [splitLongAux, h] at hp

theorem splitLongAux_rest_le {m : Nat} (hm : 1 ≤ m) :
    ∀ (f : Nat) (line : List Char), line.length ≤ f →
      ((splitLongAux m f line).2).length ≤ m := by
  intro f
  induction f with
  | zero =>
    intro line h
    simp only [splitLongAux]
    omega
  | succ f ih =>
    intro line h
    by_cases hlt : m < line.length
    · simp only [splitLongAux, if_pos hlt]
      apply ih
      have h1 : (pyStrip (line.drop m)).length ≤ line.length - m :=
        le_trans (pyStrip_length_le _) (by simp [List.length_drop])
      omega
    · simp only [splitLongAux, if_neg hlt]
      omega

theorem splitLong_rest_le {m : Nat} (hm : 1 ≤ m) (line : List Char) :
    ((splitLong m line).2).length ≤ m :=
  splitLongAux_rest_le hm line.length line le_rfl

theorem chunkLoop_bound {m : Nat} (hm : 1 ≤ m) :
    ∀ (ls : List (List Char)) (buf : List Char) (parts : List (List Char)),
      buf.length ≤ m → (∀ p ∈ parts, p.length ≤ m) →
      ∀ c ∈ chunkLoop m ls buf parts, c.length ≤ m := by
  intro ls
  induction ls with
  | nil =>
    intro buf parts hb hp c hc
    rw [chunkLoop_nil] at hc
    by_cases hbe : (pyStrip buf).isEmpty
    · rw [if_pos hbe] at hc
      exact hp c hc
    · rw [if_neg hbe] at hc
      rcases List.mem_append.mp hc with h2 | h2
      · exact hp c h2
      · rw [List.mem_singleton.mp h2]
        exact le_trans (pyStrip_length_le buf) hb
  | cons l ls ih =>
    intro buf parts hb hp c hc
    cases h1 : (pyStrip l).isEmpty with
    | true =>
      rw [chunkLoop_cons_blank h1] at hc
      exact ih buf parts hb hp c hc
    | false =>
      rw [chunkLoop_cons h1] at hc
      have hr2 : ((splitLong m (pyStrip l)).2).length ≤ m := splitLong_rest_le hm _
      have hs1 : ∀ p ∈ parts ++ (splitLong m (pyStrip l)).1, p.length ≤ m := by
        intro p hp2
        rcases List.mem_append.mp hp2 with h2 | h2
        · exact hp p h2
        · exact splitLong_emitted_le m _ _ p h2
      by_cases hov : m < buf.length + ((splitLong m (pyStrip l)).2).length + 1
      · rw [if_pos hov] at hc
        refine ih _ _ hr2 ?_ c hc
        intro p hp2
        by_cases hbe : (pyStrip buf).isEmpty
        · rw [if_pos hbe] at hp2
          exact hs1 p hp2
        · rw [if_neg hbe] at hp2
          rcases List.mem_append.mp hp2 with h2 | h2
          · exact hs1 p h2
          · rw [List.mem_singleton.mp h2]
            exact le_trans (pyStrip_length_le buf) hb
      · rw [if_neg hov] at hc
        refine ih _ _ ?_ hs1 c hc
        have hlen : (buf ++ ' ' :: (splitLong m (pyStrip l)).2).length
            = buf.length + ((splitLong m (pyStrip l)).2).length + 1 := by
          simp [List.length_append]
          omega
        calc (pyStrip (buf ++ ' ' :: (splitLong m (pyStrip l)).2)).length
            ≤ (buf ++ ' ' :: (splitLong m (pyStrip l)).2).length :=
              pyStrip_length_le _
          _ ≤ m := by omega

theorem chunk_text_bound {m : Nat} (hm : 1 ≤ m) (text : List Char) :
    ∀ c ∈ chunk_text text m, c.length ≤ m :=
  chunkLoop_bound hm (splitlines text) [] [] (by simp) (by simp)

/-! ## Single-line inputs -/

theorem splitOnNl_no_nl {l : List Char} (hn : '\n' ∉ l) : splitOnNl l = [l] := by
  induction l with
  | nil => rfl
  | cons c rest ih =>
    have hc : ¬ c = '\n' := fun h => hn (h ▸ List.mem_cons_self c rest)
    have hr : splitOnNl rest = [rest] := ih (fun h => hn (List.mem_cons_of_mem c h))
    simp [splitOnNl, hc, hr]

theorem splitlines_single {l : List Char} (hn : '\n' ∉ l) (hne : l ≠ []) :
    splitlines l = [l] := by
  have hgl : l.getLast? ≠ some '\n' := by
    rw [List.getLast?_eq_getLast_of_ne_nil hne]
    intro h
    exact hn (Option.some_injective _ h ▸ List.getLast_mem hne)
  rw [splitlines, if_neg hne, if_neg hgl]
  exact splitOnNl_no_nl hn

theorem chunkLoopT_single {m : Nat} {line : List Char}
    (h1 : (pyStrip line).isEmpty = false) :
    chunkLoopT m [line] [] [] = [pyStrip line] := by
  rw [chunkLoopT_cons h1]
  have hid : (pyStrip (pyStrip line)).isEmpty = false := by
    rw [pyStrip_idem]
    exact h1
  have hnil : pyStrip ([] : List Char) = [] := rfl
  have hne : ¬ pyStrip line = [] := by
    intro h
    rw [h] at h1
    simp at h1
  by_cases hov : m < List.length ([] : List Char) + (pyStrip line).length + 1
  · rw [if_pos hov, chunkLoopT_nil]
    simp [hnil, pyStrip_idem, hne]
  · rw [if_neg hov, List.nil_append, pyStrip_cons_space, pyStrip_idem, chunkLoopT_nil]
    simp [pyStrip_idem, hne]

/-! ## Claims C4, C5, C6, C10 -/

/-- Claim C4: for every input text and every bound `maxChars ≥ 1`, every chunk
returned by synthesis-mode chunking (`chunk_text`) has length at most
`maxChars`, including when the input contains a single line longer than
`maxChars` (hard-split at the bound). -/
theorem claim_C4 : ∀ (text : List Char) (m : Nat), 1 ≤ m →
    ∀ c ∈ chunk_text text m, c.length ≤ m :=
  fun text _ hm => chunk_text_bound hm text

/-- Witness for C4 at a concrete input containing a line of length 7 with
bound 3 (the hard-split branch fires). -/
theorem claim_C4_witness :
    1 ≤ 3 ∧ ∀ c ∈ chunk_text (String.toList "abcdefg") 3, c.length ≤ 3 :=
  ⟨by decide, claim_C4 (String.toList "abcdefg") 3 (by decide)⟩

/-- Counterexample to C5 as stated: for the input `"ab\ncccc"` with bound 3,
synthesis-mode chunking returns `["ccc", "ab", "c"]` — the hard-split slices
of the second line are emitted before the pending buffer `"ab"` is flushed,
so concatenation does not recover the non-blank content in original order.
The failure is not a matter of whitespace normalization: even the sequence of
non-whitespace characters of the concatenation (`"cccabc"`) differs from that
of the original content (`"abcccc"`).  The third conjunct checks that the
reference `normLines` really carries the original non-whitespace content. -/
theorem claim_C5_counterexample :
    joinSp (chunk_text (String.toList "ab\ncccc") 3)
        ≠ joinSp (normLines (String.toList "ab\ncccc"))
    ∧ ((chunk_text (String.toList "ab\ncccc") 3).flatten).filter (fun c => !(isWs c))
        ≠ ((normLines (String.toList "ab\ncccc")).flatten).filter (fun c => !(isWs c))
    ∧ ((normLines (String.toList "ab\ncccc")).flatten).filter (fun c => !(isWs c))
        = (String.toList "ab\ncccc").filter (fun c => !(isWs c)) := by
  refine ⟨by decide, by decide, by decide⟩

/-- Claim C5 (amended): concatenating the chunks with single spaces recovers
the whitespace-normalized non-blank-line content, in original order, for
translation-mode chunking on every input; for synthesis-mode chunking this
holds whenever no hard split occurs (every stripped line is within the
bound).  When a line longer than the bound is hard-split while earlier
content is still buffered, synthesis-mode chunking emits the slices before
the pending buffer and the order of content is not preserved. -/
theorem claim_C5 : ∀ (text : List Char) (m : Nat),
    joinSp (chunk_text_translate text m) = joinSp (normLines text)
    ∧ ((∀ l ∈ splitlines text, (pyStrip l).length ≤ m) →
        joinSp (chunk_text text m) = joinSp (normLines text)) := by
  intro text m
  refine ⟨roundtrip_translate text m, fun h => ?_⟩
  rw [chunk_text, chunkLoop_eq_chunkLoopT m (splitlines text) [] [] h]
  exact roundtrip_translate text m

/-- Witness for C5 at a concrete two-line input within the bound. -/
theorem claim_C5_witness :
    joinSp (chunk_text (String.toList "hello\nworld") 20)
      = joinSp (normLines (String.toList "hello\nworld")) :=
  (claim_C5 (String.toList "hello\nworld") 20).2 (by decide)

/-- Claim C6: translation-mode chunking never hard-splits a line — a single
line with no newline and non-blank content is returned whole, as one chunk,
for every bound `m`, in particular when its length exceeds `m`. -/
theorem claim_C6 : ∀ (line : List Char) (m : Nat), '\n' ∉ line →
    (pyStrip line).isEmpty = false →
    chunk_text_translate line m = [pyStrip line] := by
  intro line m hn h1
  have hne : line ≠ [] := by
    intro h
    rw [h] at h1
    simp [pyStrip] at h1
  rw [chunk_text_translate, splitlines_single hn hne]
  exact chunkLoopT_single h1

/-- Witness for C6: a 6-character line with bound 3 is returned whole, as a
chunk whose length exceeds the bound — the asymmetry with `chunk_text`. -/
theorem claim_C6_witness :
    chunk_text_translate (String.toList "aaaaaa") 3
        = [pyStrip (String.toList "aaaaaa")]
    ∧ 3 < (pyStrip (String.toList "aaaaaa")).length :=
  ⟨claim_C6 (String.toList "aaaaaa") 3 (by decide) (by decide), by decide⟩

/-- Claim C10: when every stripped input line fits the bound, the two
chunkers agree (the hard-split branch of `chunk_text` is never taken), and
both return the empty chunk list on empty or all-blank input. -/
theorem claim_C10 : ∀ (text : List Char) (m : Nat),
    ((∀ l ∈ splitlines text, (pyStrip l).length ≤ m) →
      chunk_text text m = chunk_text_translate text m)
    ∧ ((∀ l ∈ splitlines text, pyStrip l = []) →
      chunk_text text m = [] ∧ chunk_text_translate text m = []) := by
  intro text m
  constructor
  · intro h
    exact chunkLoop_eq_chunkLoopT m (splitlines text) [] [] h
  · intro h
    have ht : chunk_text_translate text m = [] := by
      rw [chunk_text_translate, chunkLoopT_all_blank m (splitlines text) [] [] h]
      rfl
    refine ⟨?_, ht⟩
    rw [chunk_text, chunkLoop_eq_chunkLoopT m (splitlines text) [] []
      (fun l hl => by rw [h l hl]; exact Nat.zero_le m)]
    exact ht

/-- Witness for C10: agreement on a short two-line input, and empty output on
an all-blank input. -/
theorem claim_C10_witness :
    chunk_text (String.toList "hi\nyo") 9
        = chunk_text_translate (String.toList "hi\nyo") 9
    ∧ chunk_text (String.toList " \n ") 9 = []
    ∧ chunk_text_translate (String.toList " \n ") 9 = [] :=
  ⟨(claim_C10 (String.toList "hi\nyo") 9).1 (by decide),
   (claim_C10 (String.toList " \n ") 9).2 (by decide)⟩

/-! ## Lemmas about the TTS chunk loop -/

theorem ttsLoop_cons_ok {speak : Nat → Dev → SpeakRes} {i : Nat} {dev : Dev}
    {rest : List Nat} {fb : Bool} (h : speak i dev = .ok) :
    ttsLoop speak (i :: rest) dev fb
      = (i :: (ttsLoop speak rest dev fb).1,
          (i, dev) :: (ttsLoop speak rest dev fb).2) := by
  simp [ttsLoop, h]

theorem ttsLoop_cons_fail {speak : Nat → Dev → SpeakRes} {i : Nat} {dev : Dev}
    {rest : List Nat} {fb : Bool} (h : speak i dev = .fail) :
    ttsLoop speak (i :: rest) dev fb
      = ((ttsLoop speak rest dev fb).1,
          (i, dev) :: (ttsLoop speak rest dev fb).2) := by
  simp [ttsLoop, h]

theorem ttsLoop_cons_oom_fb {speak : Nat → Dev → SpeakRes} {i : Nat} {dev : Dev}
    {rest : List Nat} (h : speak i dev = .oom) :
    ttsLoop speak (i :: rest) dev true
      = ((ttsLoop speak rest dev true).1,
          (i, dev) :: (ttsLoop speak rest dev true).2) := by
  simp [ttsLoop, h]

theorem ttsLoop_cons_oom_retry_ok {speak : Nat → Dev → SpeakRes} {i : Nat}
    {dev : Dev} {rest : List Nat} (h : speak i dev = .oom)
    (h2 : speak i Dev.cpu = .ok) :
    ttsLoop speak (i :: rest) dev false
      = (i :: (ttsLoop speak rest Dev.cpu true).1,
          (i, dev) :: (i, Dev.cpu) :: (ttsLoop speak rest Dev.cpu true).2) := by
  simp [ttsLoop, h, h2]

theorem ttsLoop_cons_oom_retry_bad {speak : Nat → Dev → SpeakRes} {i : Nat}
    {dev : Dev} {rest : List Nat} (h : speak i dev = .oom)
    (h2 : speak i Dev.cpu ≠ .ok) :
    ttsLoop speak (i :: rest) dev false
      = ((ttsLoop speak rest Dev.cpu true).1,
          (i, dev) :: (i, Dev.cpu) :: (ttsLoop speak rest Dev.cpu true).2) := by
  cases h2' : speak i Dev.cpu with
  | ok => exact absurd h2' h2
  | oom => simp [ttsLoop, h, h2']
  | fail => simp [ttsLoop, h, h2']

theorem ttsLoop_segs_sublist (speak : Nat → Dev → SpeakRes) :
    ∀ (idxs : List Nat) (dev : Dev) (fb : Bool),
      ((ttsLoop speak idxs dev fb).1).Sublist idxs := by
  intro idxs
  induction idxs with
  | nil => intro dev fb; simp [ttsLoop]
  | cons i rest ih =>
    intro dev fb
    cases h : speak i dev with
    | ok =>
      rw [ttsLoop_cons_ok h]
      exact (ih dev fb).cons₂ i
    | fail =>
      rw [ttsLoop_cons_fail h]
      exact (ih dev fb).cons i
    | oom =>
      cases fb with
      | true =>
        rw [ttsLoop_cons_oom_fb h]
        exact (ih dev true).cons i
      | false =>
        cases h2 : speak i Dev.cpu with
        | ok =>
          rw [ttsLoop_cons_oom_retry_ok h h2]
          exact (ih Dev.cpu true).cons₂ i
        | oom =>
          rw [ttsLoop_cons_oom_retry_bad h (by simp [h2])]
          exact (ih Dev.cpu true).cons i
        | fail =>
          rw [ttsLoop_cons_oom_retry_bad h (by simp [h2])]
          exact (ih Dev.cpu true).cons i

theorem ttsLoop_segs_nil_of_never_ok {speak : Nat → Dev → SpeakRes}
    (h : ∀ i d, speak i d ≠ .ok) :
    ∀ (idxs : List Nat) (dev : Dev) (fb : Bool),
      (ttsLoop speak idxs dev fb).1 = [] := by
  intro idxs
  induction idxs with
  | nil => intro dev fb; rfl
  | cons i rest ih =>
    intro dev fb
    cases hr : speak i dev with
    | ok => exact absurd hr (h i dev)
    | fail => rw [ttsLoop_cons_fail hr]; exact ih dev fb
    | oom =>
      cases fb with
      | true => rw [ttsLoop_cons_oom_fb hr]; exact ih dev true
      | false =>
        rw [ttsLoop_cons_oom_retry_bad hr (h i Dev.cpu)]
        exact ih Dev.cpu true

theorem ttsLoop_trace_fbtrue (speak : Nat → Dev → SpeakRes) :
    ∀ (idxs : List Nat) (dev : Dev),
      (ttsLoop speak idxs dev true).2 = idxs.map (fun j => (j, dev)) := by
  intro idxs
  induction idxs with
  | nil => intro dev; rfl
  | cons i rest ih =>
    intro dev
    cases h : speak i dev with
    | ok => rw [ttsLoop_cons_ok h, List.map_cons, ih dev]
    | fail => rw [ttsLoop_cons_fail h, List.map_cons, ih dev]
    | oom => rw [ttsLoop_cons_oom_fb h, List.map_cons, ih dev]

theorem ttsLoop_filter (f : Nat → Bool) :
    ∀ (idxs : List Nat) (dev : Dev) (fb : Bool),
      ttsLoop (fun i _ => if f i then SpeakRes.ok else SpeakRes.fail) idxs dev fb
        = (idxs.filter f, idxs.map (fun j => (j, dev))) := by
  intro idxs
  induction idxs with
  | nil => intro dev fb; rfl
  | cons i rest ih =>
    intro dev fb
    cases hf : f i with
    | true =>
      rw [ttsLoop_cons_ok (by simp [hf]), ih dev fb, List.filter_cons,
        List.map_cons]
      simp [hf]
    | false =>
      rw [ttsLoop_cons_fail (by simp [hf]), ih dev fb, List.filter_cons,
        List.map_cons]
      simp [hf]

theorem ttsLoop_trace_char (speak : Nat → Dev → SpeakRes) :
    ∀ (idxs : List Nat) (d0 : Dev),
      ((∀ j ∈ idxs, speak j d0 ≠ .oom)
        ∧ (ttsLoop speak idxs d0 false).2 = idxs.map (fun j => (j, d0)))
      ∨ (∃ pre j suf, idxs = pre ++ j :: suf
          ∧ (∀ k ∈ pre, speak k d0 ≠ .oom)
          ∧ speak j d0 = .oom
          ∧ (ttsLoop speak idxs d0 false).2
              = pre.map (fun k => (k, d0))
                ++ (j, d0) :: (j, Dev.cpu) :: suf.map (fun k => (k, Dev.cpu))) := by
  intro idxs
  induction idxs with
  | nil =>
    intro d0
    left
    exact ⟨by simp, rfl⟩
  | cons i rest ih =>
    intro d0
    cases h : speak i d0 with
    | ok =>
      rcases ih d0 with ⟨hno, htr⟩ | ⟨pre, j, suf, heq, hpre, hj, htr⟩
      · left
        refine ⟨?_, ?_⟩
        · intro j hj
          rcases List.mem_cons.mp hj with h2 | h2
          · rw [h2, h]; intro hx; cases hx
          · exact hno j h2
        · rw [ttsLoop_cons_ok h, htr, List.map_cons]
      · right
        refine ⟨i :: pre, j, suf, by rw [heq]; rfl, ?_, hj, ?_⟩
        · intro k hk
          rcases List.mem_cons.mp hk with h2 | h2
          · rw [h2, h]; intro hx; cases hx
          · exact hpre k h2
        · rw [ttsLoop_cons_ok h, htr, List.map_cons]
          simp
    | fail =>
      rcases ih d0 with ⟨hno, htr⟩ | ⟨pre, j, suf, heq, hpre, hj, htr⟩
      · left
        refine ⟨?_, ?_⟩
        · intro j hj
          rcases List.mem_cons.mp hj with h2 | h2
          · rw [h2, h]; intro hx; cases hx
          · exact hno j h2
        · rw [ttsLoop_cons_fail h, htr, List.map_cons]
      · right
        refine ⟨i :: pre, j, suf, by rw [heq]; rfl, ?_, hj, ?_⟩
        · intro k hk
          rcases List.mem_cons.mp hk with h2 | h2
          · rw [h2, h]; intro hx; cases hx
          · exact hpre k h2
        · rw [ttsLoop_cons_fail h, htr, List.map_cons]
          simp
    | oom =>
      right
      refine ⟨[], i, rest, rfl, by simp, h, ?_⟩
      cases h2 : speak i Dev.cpu with
      | ok =>
        rw [ttsLoop_cons_oom_retry_ok h h2, ttsLoop_trace_fbtrue]
        simp
      | oom =>
        rw [ttsLoop_cons_oom_retry_bad h (by simp [h2]), ttsLoop_trace_fbtrue]
        simp
      | fail =>
        rw [ttsLoop_cons_oom_retry_bad h (by simp [h2]), ttsLoop_trace_fbtrue]
        simp

/-! ## Lemmas about the translation chunk loop -/

theorem translateLoop_cons_ok {gen : Nat → Dev → SpeakRes} {i : Nat} {dev : Dev}
    {rest : List Nat} {fb : Bool} (h : gen i dev = .ok) :
    translateLoop gen (i :: rest) dev fb
      = ((translateLoop gen rest dev fb).1.map (fun l => i :: l),
          (i, dev) :: (translateLoop gen rest dev fb).2) := by
  simp [translateLoop, h]

theorem translateLoop_cons_fail {gen : Nat → Dev → SpeakRes} {i : Nat} {dev : Dev}
    {rest : List Nat} {fb : Bool} (h : gen i dev = .fail) :
    translateLoop gen (i :: rest) dev fb = (.error (), [(i, dev)]) := by
  simp [translateLoop, h]

theorem translateLoop_cons_oom_fb {gen : Nat → Dev → SpeakRes} {i : Nat}
    {dev : Dev} {rest : List Nat} (h : gen i dev = .oom) :
    translateLoop gen (i :: rest) dev true = (.error (), [(i, dev)]) := by
  simp [translateLoop, h]

theorem translateLoop_cons_oom_retry_ok {gen : Nat → Dev → SpeakRes} {i : Nat}
    {dev : Dev} {rest : List Nat} (h : gen i dev = .oom)
    (h2 : gen i Dev.cpu = .ok) :
    translateLoop gen (i :: rest) dev false
      = ((translateLoop gen rest Dev.cpu true).1.map (fun l => i :: l),
          (i, dev) :: (i, Dev.cpu) :: (translateLoop gen rest Dev.cpu true).2) := by
  simp [translateLoop, h, h2]

theorem translateLoop_cons_oom_retry_bad {gen : Nat → Dev → SpeakRes} {i : Nat}
    {dev : Dev} {rest : List Nat} (h : gen i dev = .oom)
    (h2 : gen i Dev.cpu ≠ .ok) :
    translateLoop gen (i :: rest) dev false
      = (.error (), [(i, dev), (i, Dev.cpu)]) := by
  cases h2' : gen i Dev.cpu with
  | ok => exact absurd h2' h2
  | oom => simp [translateLoop, h, h2']
  | fail => simp [translateLoop, h, h2']

theorem translateLoop_trace_fbtrue (gen : Nat → Dev → SpeakRes) :
    ∀ (idxs : List Nat) (dev : Dev),
      ∃ l2, l2 <+: idxs
        ∧ (translateLoop gen idxs dev true).2 = l2.map (fun k => (k, dev)) := by
  intro idxs
  induction idxs with
  | nil => intro dev; exact ⟨[], List.nil_prefix, rfl⟩
  | cons i rest ih =>
    intro dev
    cases h : gen i dev with
    | ok =>
      obtain ⟨l2, hp, ht⟩ := ih dev
      obtain ⟨t, ht2⟩ := hp
      refine ⟨i :: l2, ⟨t, by rw [List.cons_append, ht2]⟩, ?_⟩
      rw [translateLoop_cons_ok h, ht, List.map_cons]
    | oom =>
      exact ⟨[i], ⟨rest, rfl⟩, by rw [translateLoop_cons_oom_fb h]; rfl⟩
    | fail =>
      exact ⟨[i], ⟨rest, rfl⟩, by rw [translateLoop_cons_fail h]; rfl⟩

theorem translateLoop_trace_char (gen : Nat → Dev → SpeakRes) :
    ∀ (idxs : List Nat) (d0 : Dev),
      (∃ l2, l2 <+: idxs ∧ (∀ k ∈ l2, gen k d0 ≠ .oom)
        ∧ (translateLoop gen idxs d0 false).2 = l2.map (fun k => (k, d0)))
      ∨ (∃ pre j suf suf2, idxs = pre ++ j :: suf
          ∧ (∀ k ∈ pre, gen k d0 ≠ .oom)
          ∧ gen j d0 = .oom
          ∧ suf2 <+: suf
          ∧ (translateLoop gen idxs d0 false).2
              = pre.map (fun k => (k, d0))
                ++ (j, d0) :: (j, Dev.cpu) :: suf2.map (fun k => (k, Dev.cpu))) := by
  intro idxs
  induction idxs with
  | nil =>
    intro d0
    left
    exact ⟨[], List.nil_prefix, by simp, rfl⟩
  | cons i rest ih =>
    intro d0
    cases h : gen i d0 with
    | ok =>
      rcases ih d0 with ⟨l2, hp, hno, htr⟩ | ⟨pre, j, suf, suf2, heq, hpre, hj, hsuf, htr⟩
      · left
        obtain ⟨t, ht2⟩ := hp
        refine ⟨i :: l2, ⟨t, by rw [List.cons_append, ht2]⟩, ?_, ?_⟩
        · intro k hk
          rcases List.mem_cons.mp hk with h2 | h2
          · rw [h2, h]; intro hx; cases hx
          · exact hno k h2
        · rw [translateLoop_cons_ok h, htr, List.map_cons]
      · right
        refine ⟨i :: pre, j, suf, suf2, by rw [heq]; rfl, ?_, hj, hsuf, ?_⟩
        · intro k hk
          rcases List.mem_cons.mp hk with h2 | h2
          · rw [h2, h]; intro hx; cases hx
          · exact hpre k h2
        · rw [translateLoop_cons_ok h, htr, List.map_cons]
          simp
    | fail =>
      left
      refine ⟨[i], ⟨rest, rfl⟩, ?_, by rw [translateLoop_cons_fail h]; rfl⟩
      intro k hk
      rw [List.mem_singleton.mp hk, h]
      intro hx
      cases hx
    | oom =>
      right
      cases h2 : gen i Dev.cpu with
      | ok =>
        obtain ⟨l2, hp, ht⟩ := translateLoop_trace_fbtrue gen rest Dev.cpu
        refine ⟨[], i, rest, l2, rfl, by simp, h, hp, ?_⟩
        rw [translateLoop_cons_oom_retry_ok h h2, ht]
        rfl
      | oom =>
        refine ⟨[], i, rest, [], rfl, by simp, h, List.nil_prefix, ?_⟩
        rw [translateLoop_cons_oom_retry_bad h (by simp [h2])]
        rfl
      | fail =>
        refine ⟨[], i, rest, [], rfl, by simp, h, List.nil_prefix, ?_⟩
        rw [translateLoop_cons_oom_retry_bad h (by simp [h2])]
        rfl

/-! ## Claims C2, C3, C9 -/

/-- Claim C2: in `tts_speak`, if synthesis never succeeds the stage raises a
fatal error; a successful stage returns a non-empty sublist of the chunk
indices (so strictly increasing when the indices are), and for a collaborator
with a device-independent per-chunk success predicate `f` the output is
exactly the successful chunks, in order, failed chunks skipped: all chunks
failing gives the fatal error, at least one success gives
`idxs.filter f`. -/
theorem claim_C2 : ∀ (speak : Nat → Dev → SpeakRes) (d0 : Dev)
    (idxs : List Nat) (f : Nat → Bool),
    ((∀ i d, speak i d ≠ .ok) → tts_speak speak d0 idxs = .error ())
    ∧ (∀ l, tts_speak speak d0 idxs = .ok l →
        l ≠ [] ∧ List.Sublist l idxs
          ∧ (idxs.Pairwise (· < ·) → l.Pairwise (· < ·)))
    ∧ ((∀ i ∈ idxs, f i = false) →
        tts_speak (fun i _ => if f i then SpeakRes.ok else SpeakRes.fail) d0 idxs
          = .error ())
    ∧ ((∃ i, i ∈ idxs ∧ f i = true) →
        tts_speak (fun i _ => if f i then SpeakRes.ok else SpeakRes.fail) d0 idxs
          = .ok (idxs.filter f)) := by
  intro speak d0 idxs f
  refine ⟨?_, ?_, ?_, ?_⟩
  · intro h
    rw [tts_speak, ttsLoop_segs_nil_of_never_ok h]
    rfl
  · intro l hl
    rw [tts_speak] at hl
    by_cases hs : (ttsLoop speak idxs d0 false).1 = []
    · rw [if_pos hs] at hl
      cases hl
    · rw [if_neg hs] at hl
      have hls : l = (ttsLoop speak idxs d0 false).1 := by
        cases hl
        rfl
      subst hls
      exact ⟨hs, ttsLoop_segs_sublist speak idxs d0 false,
        fun hp => hp.sublist (ttsLoop_segs_sublist speak idxs d0 false)⟩
  · intro h
    rw [tts_speak, ttsLoop_filter]
    have : idxs.filter f = [] := by
      rw [List.filter_eq_nil_iff]
      intro a ha
      simp [h a ha]
    rw [if_pos this]
  · intro h
    obtain ⟨i, hi, hf⟩ := h
    rw [tts_speak, ttsLoop_filter]
    have : idxs.filter f ≠ [] := by
      intro hn
      rw [List.filter_eq_nil_iff] at hn
      exact hn i hi (by simp [hf])
    rw [if_neg this]

/-- Witness for C2: three chunks where only chunk 2 fails; the output is
exactly the surviving segments `[1, 3]`, in order. -/
theorem claim_C2_witness :
    tts_speak (fun i _ => if i != 2 then SpeakRes.ok else SpeakRes.fail)
        Dev.gpu [1, 2, 3]
      = .ok ([1, 2, 3].filter (fun i => i != 2))
    ∧ [1, 2, 3].filter (fun i => (i != 2 : Bool)) = [1, 3] := by
  constructor
  · exact (claim_C2 (fun i _ => if i != 2 then SpeakRes.ok else SpeakRes.fail)
      Dev.gpu [1, 2, 3] (fun i => i != 2)).2.2.2 ⟨1, by decide, by decide⟩
  · decide

/-- Claim C3: in both model-backed chunk loops, the attempt trace from a
fresh state is fully characterized: either no attempt ever reports OOM on the
initial device and every processed chunk is attempted once on that device, or
the first OOM chunk `j` is retried exactly once, immediately, on the CPU
device, the fallback is sticky, and every later chunk is attempted exactly
once on the CPU (so no second retry ever happens after the fallback, and no
chunk re-attempts the initial/GPU device). -/
theorem claim_C3 : ∀ (speak gen : Nat → Dev → SpeakRes) (d0 : Dev)
    (idxs : List Nat),
    (((∀ j ∈ idxs, speak j d0 ≠ .oom)
        ∧ (ttsLoop speak idxs d0 false).2 = idxs.map (fun j => (j, d0)))
      ∨ (∃ pre j suf, idxs = pre ++ j :: suf
          ∧ (∀ k ∈ pre, speak k d0 ≠ .oom)
          ∧ speak j d0 = .oom
          ∧ (ttsLoop speak idxs d0 false).2
              = pre.map (fun k => (k, d0))
                ++ (j, d0) :: (j, Dev.cpu) :: suf.map (fun k => (k, Dev.cpu))))
    ∧ ((∃ l2, l2 <+: idxs ∧ (∀ k ∈ l2, gen k d0 ≠ .oom)
          ∧ (translateLoop gen idxs d0 false).2 = l2.map (fun k => (k, d0)))
      ∨ (∃ pre j suf suf2, idxs = pre ++ j :: suf
          ∧ (∀ k ∈ pre, gen k d0 ≠ .oom)
          ∧ gen j d0 = .oom
          ∧ suf2 <+: suf
          ∧ (translateLoop gen idxs d0 false).2
              = pre.map (fun k => (k, d0))
                ++ (j, d0) :: (j, Dev.cpu) :: suf2.map (fun k => (k, Dev.cpu)))) :=
  fun speak gen d0 idxs =>
    ⟨ttsLoop_trace_char speak idxs d0, translateLoop_trace_char gen idxs d0⟩

/-- Witness for C3: a collaborator that reports OOM for chunk 1 on any
device.  The TTS loop retries chunk 1 once on CPU and then attempts chunk 2
only on CPU. -/
theorem claim_C3_witness :
    (ttsLoop (fun i _ => if i == 1 then SpeakRes.oom else SpeakRes.ok)
        [1, 2] Dev.gpu false).2
      = [(1, Dev.gpu), (1, Dev.cpu), (2, Dev.cpu)] := by
  have h := (claim_C3 (fun i _ => if i == 1 then SpeakRes.oom else SpeakRes.ok)
    (fun i _ => if i == 1 then SpeakRes.oom else SpeakRes.ok) Dev.gpu [1, 2]).1
  rcases h with ⟨hno, _⟩ | ⟨pre, j, suf, heq, hpre, hj, htr⟩
  · exact absurd (by decide :
      (fun i (_ : Dev) => if i == 1 then SpeakRes.oom else SpeakRes.ok) 1 Dev.gpu
        = SpeakRes.oom) (hno 1 (by decide))
  · cases pre with
    | nil =>
      have hj1 : j = 1 := by
        have := congrArg (fun l => l.head?) heq
        simpa using this.symm
      have hsuf : suf = [2] := by
        have := congrArg (fun l => l.tail) heq
        simpa using this.symm
      rw [htr, hj1, hsuf]
      rfl
    | cons p pre2 =>
      have hp1 : p = 1 := by
        have := congrArg (fun l => l.head?) heq
        simpa using this.symm
      exact absurd (by rw [hp1]; decide :
        (fun i (_ : Dev) => if i == 1 then SpeakRes.oom else SpeakRes.ok) p Dev.gpu
          = SpeakRes.oom)
        (hpre p (List.mem_cons_self p pre2))

/-- Claim C9: in the TTS segment loop, a chunk whose call fails with a
non-OOM error is skipped: it contributes no segment, the loop neither changes
device nor sets the fallback flag, and processing continues with the
remaining chunks exactly as if the chunk had not been there (apart from the
logged attempt in the trace). -/
theorem claim_C9 : ∀ (speak : Nat → Dev → SpeakRes) (dev : Dev) (fb : Bool)
    (i : Nat) (rest : List Nat),
    speak i dev = .fail →
    (ttsLoop speak (i :: rest) dev fb).1 = (ttsLoop speak rest dev fb).1
    ∧ (ttsLoop speak (i :: rest) dev fb).2
        = (i, dev) :: (ttsLoop speak rest dev fb).2
    ∧ (i ∉ rest → i ∉ (ttsLoop speak (i :: rest) dev fb).1) := by
  intro speak dev fb i rest h
  refine ⟨by rw [ttsLoop_cons_fail h], by rw [ttsLoop_cons_fail h], ?_⟩
  intro hni hmem
  rw [ttsLoop_cons_fail h] at hmem
  exact hni ((ttsLoop_segs_sublist speak rest dev fb).subset hmem)

/-- Witness for C9: chunk 1 fails with a non-OOM error; it is skipped, the
device stays GPU, the fallback flag stays unset, and chunk 2 still
succeeds. -/
theorem claim_C9_witness :
    (ttsLoop (fun i _ => if i == 1 then SpeakRes.fail else SpeakRes.ok)
        [1, 2] Dev.gpu false).1
      = (ttsLoop (fun i _ => if i == 1 then SpeakRes.fail else SpeakRes.ok)
          [2] Dev.gpu false).1
    ∧ (ttsLoop (fun i _ => if i == 1 then SpeakRes.fail else SpeakRes.ok)
        [1, 2] Dev.gpu false).2
      = (1, Dev.gpu) :: (ttsLoop (fun i _ => if i == 1 then SpeakRes.fail
          else SpeakRes.ok) [2] Dev.gpu false).2
    ∧ 1 ∉ (ttsLoop (fun i _ => if i == 1 then SpeakRes.fail else SpeakRes.ok)
        [1, 2] Dev.gpu false).1 := by
  have h := claim_C9 (fun i _ => if i == 1 then SpeakRes.fail else SpeakRes.ok)
    Dev.gpu false 1 [2] (by decide)
  exact ⟨h.1, h.2.1, h.2.2 (by decide)⟩

/-! ## Claim C1: job status lifecycle -/

theorem runPipelineBg_ok {prep run : Except String Unit}
    (hp : prep = .ok ()) (hr : run = .ok ()) :
    runPipelineBg prep run = (.done, none) := by
  subst hp
  subst hr
  rfl

theorem runPipelineBg_prep_err {run : Except String Unit} {e : String} :
    runPipelineBg (.error e) run = (.error, some e) := rfl

theorem runPipelineBg_run_err {prep run : Except String Unit} {e : String}
    (hp : prep = .ok ()) (hr : run = .error e) :
    runPipelineBg prep run = (.error, some e) := by
  subst hp
  subst hr
  rfl

theorem runPipelineBg_terminal (prep run : Except String Unit) :
    (runPipelineBg prep run).1 = .done ∨ (runPipelineBg prep run).1 = .error := by
  cases prep with
  | error e => exact Or.inr rfl
  | ok u =>
    cases u
    cases run with
    | error e => exact Or.inr rfl
    | ok u => cases u; exact Or.inl rfl

theorem exbind_ok {α β : Type} (x : α) (f : α → Except String β) :
    (Bind.bind (Except.ok x) f : Except String β) = f x := rfl

theorem exbind_err {α β : Type} (e : String) (f : α → Except String β) :
    (Bind.bind (Except.error e) f : Except String β) = Except.error e := rfl

/-- Claim C1: a run of `_run_pipeline_bg` — prep (imports, optional remote
download) followed by the five-stage pipeline — always ends a job created in
the `running` status in either `done` or `error`, never anything else; if
every stage completes the status is `done` with no error log; if prep or any
stage raises, the status is `error` and the exception detail `e` is persisted
to the job's log area, for whichever stage fails first. -/
theorem claim_C1 : ∀ (prep ff : Except String Unit) (a : Except String String)
    (t : String → Except String String) (ts : String → Except String Unit)
    (mp : Except String Unit),
    (statusAfterCreate = .running
      ∧ ((runPipelineBg prep (pipelineMain ff a t ts mp)).1 = .done
          ∨ (runPipelineBg prep (pipelineMain ff a t ts mp)).1 = .error))
    ∧ (prep = .ok () → ff = .ok () → ∀ en, a = .ok en → ∀ vi, t en = .ok vi →
        ts vi = .ok () → mp = .ok () →
        runPipelineBg prep (pipelineMain ff a t ts mp) = (.done, none))
    ∧ (∀ e, prep = .error e →
        runPipelineBg prep (pipelineMain ff a t ts mp) = (.error, some e))
    ∧ (∀ e, prep = .ok () → ff = .error e →
        runPipelineBg prep (pipelineMain ff a t ts mp) = (.error, some e))
    ∧ (∀ e, prep = .ok () → ff = .ok () → a = .error e →
        runPipelineBg prep (pipelineMain ff a t ts mp) = (.error, some e))
    ∧ (∀ e en, prep = .ok () → ff = .ok () → a = .ok en → t en = .error e →
        runPipelineBg prep (pipelineMain ff a t ts mp) = (.error, some e))
    ∧ (∀ e en vi, prep = .ok () → ff = .ok () → a = .ok en → t en = .ok vi →
        ts vi = .error e →
        runPipelineBg prep (pipelineMain ff a t ts mp) = (.error, some e))
    ∧ (∀ e en vi, prep = .ok () → ff = .ok () → a = .ok en → t en = .ok vi →
        ts vi = .ok () → mp = .error e →
        runPipelineBg prep (pipelineMain ff a t ts mp) = (.error, some e)) := by
  intro prep ff a t ts mp
  refine ⟨⟨rfl, runPipelineBg_terminal prep (pipelineMain ff a t ts mp)⟩,
    ?_, ?_, ?_, ?_, ?_, ?_, ?_⟩
  · intro h1 h2 en h3 vi h4 h5 h6
    refine runPipelineBg_ok h1 ?_
    simp only [pipelineMain, h2, h3, h4, h5, h6, exbind_ok]
  · intro e h1
    rw [h1]
    exact runPipelineBg_prep_err
  · intro e h1 h2
    refine runPipelineBg_run_err h1 ?_
    simp only [pipelineMain, h2, exbind_err]
  · intro e h1 h2 h3
    refine runPipelineBg_run_err h1 ?_
    simp only [pipelineMain, h2, h3, exbind_ok, exbind_err]
  · intro e en h1 h2 h3 h4
    refine runPipelineBg_run_err h1 ?_
    simp only [pipelineMain, h2, h3, h4, exbind_ok, exbind_err]
  · intro e en vi h1 h2 h3 h4 h5
    refine runPipelineBg_run_err h1 ?_
    simp only [pipelineMain, h2, h3, h4, h5, exbind_ok, exbind_err]
  · intro e en vi h1 h2 h3 h4 h5 h6
    refine runPipelineBg_run_err h1 ?_
    simp only [pipelineMain, h2, h3, h4, h5, h6, exbind_ok, exbind_err]

/-- Witness for C1: an all-success run ends `done` with no error log; a run
whose TTS stage raises ends `error` with the exception detail persisted. -/
theorem claim_C1_witness :
    runPipelineBg (.ok ()) (pipelineMain (.ok ()) (.ok "en")
        (fun _ => .ok "vi") (fun _ => .ok ()) (.ok ()))
      = (.done, none)
    ∧ runPipelineBg (.ok ()) (pipelineMain (.ok ()) (.ok "en")
        (fun _ => .ok "vi") (fun _ => .error "boom") (.ok ()))
      = (.error, some "boom") := by
  constructor
  · exact (claim_C1 (.ok ()) (.ok ()) (.ok "en") (fun _ => .ok "vi")
      (fun _ => .ok ()) (.ok ())).2.1 rfl rfl "en" rfl "vi" rfl rfl rfl
  · exact (claim_C1 (.ok ()) (.ok ()) (.ok "en") (fun _ => .ok "vi")
      (fun _ => .error "boom") (.ok ())).2.2.2.2.2.2.1 "boom" "en" "vi"
      rfl rfl rfl rfl rfl

/-! ## Claim C7: download path containment -/

theorem download_eq (fs : List String → Bool) (jobsDir : List String)
    (jobId : String) (rel : List String) :
    download fs jobsDir jobId rel
      = if (resolveComps (jobsDir ++ [jobId, "outputs"])).isPrefixOf
            (resolveComps (jobsDir ++ [jobId, "outputs"] ++ rel)) then
          if fs (resolveComps (jobsDir ++ [jobId, "outputs"] ++ rel)) then
            .served (resolveComps (jobsDir ++ [jobId, "outputs"] ++ rel))
          else .notFound
        else .invalid := rfl

/-- Claim C7: the download endpoint serves a file only when the resolved path
is contained in (or equal to) the job's outputs directory and the file
exists; the traversal request `../../etc/passwd` is rejected with 400 for
every disk state (even if the file exists); any escaping path is rejected
with 400; a contained path whose file does not exist yields 404. -/
theorem claim_C7 : ∀ (fs : List String → Bool) (jobsDir : List String)
    (jobId : String) (rel : List String),
    (∀ p, download fs jobsDir jobId rel = .served p →
        resolveComps (jobsDir ++ [jobId, "outputs"]) <+: p ∧ fs p = true)
    ∧ download fs ["data", "storage", "jobs"] "job1"
        ["..", "..", "etc", "passwd"] = .invalid
    ∧ ((resolveComps (jobsDir ++ [jobId, "outputs"])).isPrefixOf
          (resolveComps (jobsDir ++ [jobId, "outputs"] ++ rel)) = false →
        download fs jobsDir jobId rel = .invalid)
    ∧ ((resolveComps (jobsDir ++ [jobId, "outputs"])).isPrefixOf
          (resolveComps (jobsDir ++ [jobId, "outputs"] ++ rel)) = true →
        fs (resolveComps (jobsDir ++ [jobId, "outputs"] ++ rel)) = false →
        download fs jobsDir jobId rel = .notFound) := by
  intro fs jobsDir jobId rel
  have hinv : ∀ (fs2 : List String → Bool) (jd : List String) (ji : String)
      (r : List String),
      (resolveComps (jd ++ [ji, "outputs"])).isPrefixOf
          (resolveComps (jd ++ [ji, "outputs"] ++ r)) = false →
      download fs2 jd ji r = .invalid := by
    intro fs2 jd ji r h
    rw [download_eq, h]
    rfl
  refine ⟨?_, ?_, hinv fs jobsDir jobId rel, ?_⟩
  · intro p hp
    rw [download_eq] at hp
    by_cases h1 : (resolveComps (jobsDir ++ [jobId, "outputs"])).isPrefixOf
        (resolveComps (jobsDir ++ [jobId, "outputs"] ++ rel)) = true
    · rw [if_pos h1] at hp
      by_cases h2 : fs (resolveComps (jobsDir ++ [jobId, "outputs"] ++ rel)) = true
      · rw [if_pos h2] at hp
        have hpf : p = resolveComps (jobsDir ++ [jobId, "outputs"] ++ rel) := by
          cases hp
          rfl
        subst hpf
        exact ⟨List.isPrefixOf_iff_prefix.mp h1, h2⟩
      · rw [if_neg h2] at hp
        simp at hp
    · rw [if_neg h1] at hp
      simp at hp
  · refine hinv fs ["data", "storage", "jobs"] "job1" ["..", "..", "etc", "passwd"] ?_
    decide
  · intro h1 h2
    rw [download_eq, h1, h2]
    rfl

/-- Witness for C7: a contained relative path whose file is absent yields
404. -/
theorem claim_C7_witness :
    download (fun _ => false) ["data", "storage", "jobs"] "job1"
        ["podcast_vi_SF.mp3"] = .notFound :=
  (claim_C7 (fun _ => false) ["data", "storage", "jobs"] "job1"
    ["podcast_vi_SF.mp3"]).2.2.2 (by decide) rfl

/-! ## Claim C8: job creation validation -/

/-- Counterexample to C8 as stated: a request supplying both an uploaded
file and a YouTube fetch URL is accepted (`create_job` does not reject it),
contradicting "exactly one of {uploaded audio, remote fetch} must be present;
rejects otherwise".  The source only rejects when no source at all is
supplied (`main.py:131-133`). -/
theorem claim_C8_counterexample :
    create_job_rejected true (some "https://youtu.be/x") none = false := rfl

/-- Claim C8 (amended): job creation rejects a request with a 400 error
exactly when no source is supplied: no uploaded file, no (non-empty) YouTube
URL and no (non-empty) Spotify URL.  In particular a request with neither
source is rejected, but a request supplying both an uploaded file and a
fetch URL is accepted. -/
theorem claim_C8 : ∀ (file : Bool) (yt sp : Option String),
    create_job_rejected file yt sp = true
      ↔ (file = false ∧ truthyStr yt = false ∧ truthyStr sp = false) := by
  intro file yt sp
  cases file with
  | true => simp [create_job_rejected]
  | false =>
    cases hy : truthyStr yt with
    | true => simp [create_job_rejected, hy]
    | false =>
      cases hs : truthyStr sp with
      | true => simp [create_job_rejected, hy, hs]
      | false => simp [create_job_rejected, hy, hs]

/-- Witness for C8: a request with no source is rejected; a request with
both a file and a YouTube URL is not rejected. -/
theorem claim_C8_witness :
    create_job_rejected false none none = true
    ∧ create_job_rejected true (some "https://youtu.be/x") none = false := by
  constructor
  · exact (claim_C8 false none none).mpr ⟨rfl, rfl, rfl⟩
  · cases hc : create_job_rejected true (some "https://youtu.be/x") none with
    | false => rfl
    | true =>
      rcases (claim_C8 true (some "https://youtu.be/x") none).mp hc with ⟨h1, _⟩
      cases h1

end PodcastDub
